import Mathlib

/-!
Shallow embedding of `testable.go` (package main of nick96/testable), a Go code
generator that parses a package, extracts exported structs with their exported
fields and methods, and renders an interface package plus a forwarding
implementation package.  Go strings are Lean strings, Go slices are lists,
Go maps are association lists together with explicit iteration orders wherever
the code ranges over a map (Go's map iteration order is unspecified), and
fallible steps return `Except`.
-/

set_option maxRecDepth 100000

namespace Testable

/-- Field (testable.go lines 24-28).  The Go field `Type` is rendered `Typ`
because `Type` is a Lean keyword. -/
structure Field where
  Name : String
  Typ : String
deriving DecidableEq

/-- Method (testable.go lines 30-35). -/
structure Method where
  Name : String
  Params : List Field
  Results : List Field
deriving DecidableEq

/-- Struct (testable.go lines 37-43).  The `Parent *ast.StructType` field is
never read by the generator and is omitted. -/
structure Struct where
  Name : String
  Methods : List Method := []
  Fields : List Field := []
deriving DecidableEq

/-- Package (testable.go lines 53-59).  `getFunctions` always returns an empty
slice, so the `Functions` field is constantly empty and is omitted. -/
structure Package where
  Name : String
  Structs : List Struct
  ImportPath : String
deriving DecidableEq

/-- Model of Go `strings.Split(s, sep)` for a one-character separator, on the
underlying character list: split at every occurrence of the separator. -/
def splitGoAux (sep : Char) : List Char → List Char → List (List Char)
  | [], acc => [acc.reverse]
  | c :: rest, acc =>
    if c = sep then acc.reverse :: splitGoAux sep rest []
    else splitGoAux sep rest (c :: acc)

/-- Model of Go `strings.Split` with a single-character separator. -/
def splitGo (s : String) (sep : Char) : List String :=
  (splitGoAux sep s.data []).map String.mk

/-- Model of Go `strings.Contains(s, sub)`: `sub` occurs contiguously in `s`. -/
def containsGo (s sub : String) : Bool := decide (sub.data <:+: s.data)

/-- Model of Go `ast.IsExported` and `Ident.IsExported` (the ASCII fragment of
`unicode.IsUpper`): the name starts with an upper-case letter. -/
def isExportedGo (s : String) : Bool :=
  match s.data with
  | [] => false
  | c :: _ => c.isUpper

/-- Go map model: lookup in an association list. -/
def lookupA {α : Type} : List (String × α) → String → Option α
  | [], _ => none
  | (k, v) :: rest, key => if k = key then some v else lookupA rest key

/-- Go map model: an assignment replaces the binding in place or appends a
fresh one. -/
def insertA {α : Type} : List (String × α) → String → α → List (String × α)
  | [], k, v => [(k, v)]
  | (k', v') :: rest, k, v =>
    if k' = k then (k', v) :: rest else (k', v') :: insertA rest k v

theorem lookupA_insertA {α : Type} (m : List (String × α)) (k key : String) (v : α) :
    lookupA (insertA m k v) key = if k = key then some v else lookupA m key := by
  induction m with
  | nil => simp [insertA, lookupA]
  | cons hd tl ih =>
    obtain ⟨k', v'⟩ := hd
    by_cases h : k' = k
    · subst h
      by_cases h2 : k' = key <;> simp [insertA, lookupA, h2]
    · by_cases h2 : k' = key
      · subst h2
        simp [insertA, lookupA, h, Ne.symm h]
      · simp [insertA, lookupA, h, h2, ih]

theorem mem_insertA {α : Type} {m : List (String × α)} {k : String} {v : α}
    {p : String × α} (h : p ∈ insertA m k v) : p = (k, v) ∨ p ∈ m := by
  induction m with
  | nil => simpa [insertA] using h
  | cons hd tl ih =>
    obtain ⟨k', v'⟩ := hd
    by_cases hk : k' = k
    · subst hk
      rcases (by simpa [insertA] using h : p = (k', v) ∨ p ∈ tl) with h1 | h1
      · exact Or.inl (by simpa using h1)
      · exact Or.inr (List.mem_cons_of_mem _ h1)
    · rcases (by simpa [insertA, hk] using h : p = (k', v') ∨ p ∈ insertA tl k v) with h1 | h1
      · exact Or.inr (by simp [h1])
      · rcases ih h1 with h2 | h2
        · exact Or.inl h2
        · exact Or.inr (List.mem_cons_of_mem _ h2)

theorem lookupA_mem {α : Type} {m : List (String × α)} {k : String} {v : α}
    (h : lookupA m k = some v) : (k, v) ∈ m := by
  induction m with
  | nil => simp [lookupA] at h
  | cons hd tl ih =>
    obtain ⟨k', v'⟩ := hd
    by_cases hk : k' = k
    · subst hk
      simp [lookupA] at h
      simp [h]
    · simp [lookupA, hk] at h
      exact List.mem_cons_of_mem _ (ih h)

/-! ### Model of the relevant `go/ast` shapes

The generator reads types and receiver types as raw source text
(`string(src[e.Pos()-1 : e.End()-1])`); the model stores that source slice
directly on each node. -/

/-- Model of `ast.Field`: the declared names and the source text of the type
(the slice `src[Type.Pos()-1 : Type.End()-1]`). -/
structure AstField where
  names : List String
  typeSrc : String
deriving DecidableEq

/-- Model of an `ast.FuncDecl` that has a receiver: the receiver type's source
text, the method name, the parameter fields (never nil in `go/ast`), and the
result fields (`nil` possible, modelled as `none`). -/
structure MethodDecl where
  recvTypeSrc : String
  name : String
  params : List AstField
  results : Option (List AstField)
deriving DecidableEq

/-- Model of one top-level declaration of a file: either a method declaration
(a `FuncDecl` with a receiver) or anything else, which
`maker.GetReceiverTypeName` rejects. -/
inductive Decl where
  | method (m : MethodDecl)
  | other
deriving DecidableEq

/-- Model of an `ast.StructType` node visited by `ast.Inspect` in `getFields`:
the 1-based source line of the node's position and its field list. -/
structure StructNode where
  line : Nat
  fields : List AstField
deriving DecidableEq

/-- Model of one parsed file of the package: its file name, its raw source
text, its top-level declarations, and the `StructType` nodes `ast.Inspect`
visits, in traversal order. -/
structure GoFile where
  name : String
  src : String
  decls : List Decl
  structNodes : List StructNode
deriving DecidableEq

/-- A failing run: either a returned Go `error` (its message) or a runtime
panic (an out-of-range index). -/
inductive Fail where
  | err (msg : String)
  | panic
deriving DecidableEq

/-- Model of the vendored `maker.GetReceiverTypeName(src, decl)`: for a
declaration that is a `FuncDecl` with a receiver it returns the receiver
type's source text with one leading `*` stripped, together with the
declaration; for anything else it returns `("", nil)`. -/
def getReceiverTypeName (d : Decl) : String × Option MethodDecl :=
  match d with
  | .method m =>
    (match m.recvTypeSrc.data with
     | '*' :: rest => String.mk rest
     | _ => m.recvTypeSrc, some m)
  | .other => ("", none)

/-- getMethodFields (testable.go lines 324-339): one `Field` per `ast.Field`,
keeping only the FIRST declared name (empty when the field has no names) and
the type's source text.  The Go loop appends to an initially-nil slice. -/
def getMethodFields (astFields : List AstField) : List Field :=
  astFields.foldl
    (fun fields af => fields ++ [{ Name := af.names.headD "", Typ := af.typeSrc }]) []

/-- The `Method` value built for one exported method declaration
(testable.go lines 303-315): `fd.Type.Params` is never nil, `fd.Type.Results`
may be nil in which case the results are empty. -/
def mkMethod (m : MethodDecl) : Method :=
  { Name := m.name
    Params := getMethodFields m.params
    Results := match m.results with
      | some rs => getMethodFields rs
      | none => [] }

/-- The declaration loop of getMethods (testable.go lines 290-318).  The Go
code re-reads the file inside the loop and `continue`s on a read error, so a
file whose read fails (`readOk` false) contributes nothing; a declaration is
recorded only when it is a method (`fd != nil`) with an exported name, under
the receiver type name returned by `maker.GetReceiverTypeName`. -/
def getMethodsDecls (readOk : String → Bool) (file : GoFile) :
    List Decl → List (String × List Method) → List (String × List Method)
  | [], methodMap => methodMap
  | d :: rest, methodMap =>
    if readOk file.name = false then getMethodsDecls readOk file rest methodMap
    else
      match getReceiverTypeName d with
      | (a, some fd) =>
        if isExportedGo fd.name then
          let methods := (lookupA methodMap a).getD []
          getMethodsDecls readOk file rest (insertA methodMap a (methods ++ [mkMethod fd]))
        else getMethodsDecls readOk file rest methodMap
      | (_, none) => getMethodsDecls readOk file rest methodMap

/-- The file loop of getMethods (testable.go lines 289-319); the iteration
order over `pkg.Files` (a Go map) is the order of the given list. -/
def getMethodsFiles (readOk : String → Bool) :
    List GoFile → List (String × List Method) → List (String × List Method)
  | [], methodMap => methodMap
  | f :: rest, methodMap =>
    getMethodsFiles readOk rest (getMethodsDecls readOk f f.decls methodMap)

/-- getMethods (testable.go lines 287-322): map from receiver type name to the
exported methods found on it.  It never returns a non-nil error. -/
def getMethods (readOk : String → Bool) (files : List GoFile) :
    List (String × List Method) :=
  getMethodsFiles readOk files []

/-- getStructName (testable.go lines 381-385): split the source into lines,
take the line holding the struct type's position (1-based), split it on single
spaces and take the SECOND token.  `none` models the out-of-range panic when
the line has fewer than two space-separated tokens. -/
def getStructName (src : String) (line : Nat) : Option String :=
  match (splitGo src '\n')[line - 1]? with
  | none => none
  | some l => (splitGo l ' ')[1]?

/-- The field-collection loop of getFields (testable.go lines 359-371): keep a
struct field only when it has at least one name and the FIRST name is
exported; record that first name and the type's source text. -/
def extractExportedFields (astFields : List AstField) : List Field :=
  astFields.foldl
    (fun fields af =>
      if !af.names.isEmpty && isExportedGo (af.names.headD "") then
        fields ++ [{ Name := af.names.headD "", Typ := af.typeSrc }]
      else fields) []

/-- The `ast.Inspect` walk of getFields (testable.go lines 355-376) over the
`StructType` nodes of one file: `getStructName` panics (`Fail.panic`) on a
malformed line; for an exported struct name the exported fields are assigned
to the field map (assignment, so a later struct of the same name wins). -/
def getFieldsNodes (src : String) :
    List StructNode → List (String × List Field) → Except Fail (List (String × List Field))
  | [], fieldMap => .ok fieldMap
  | nd :: rest, fieldMap =>
    match getStructName src nd.line with
    | none => .error .panic
    | some structName =>
      if isExportedGo structName then
        getFieldsNodes src rest (insertA fieldMap structName (extractExportedFields nd.fields))
      else getFieldsNodes src rest fieldMap

/-- The file loop of getFields (testable.go lines 343-377): a file whose
re-read fails is skipped (`continue`); a failing re-parse
(`parser.ParseFile`, modelled by `parseErr`) aborts with that error. -/
def getFieldsFiles (readOk : String → Bool) (parseErr : String → Option String) :
    List GoFile → List (String × List Field) → Except Fail (List (String × List Field))
  | [], fieldMap => .ok fieldMap
  | f :: rest, fieldMap =>
    if readOk f.name = false then getFieldsFiles readOk parseErr rest fieldMap
    else
      match parseErr f.name with
      | some e => .error (.err e)
      | none =>
        match getFieldsNodes f.src f.structNodes fieldMap with
        | .error e => .error e
        | .ok fieldMap2 => getFieldsFiles readOk parseErr rest fieldMap2

/-- getFields (testable.go lines 341-379). -/
def getFields (readOk : String → Bool) (parseErr : String → Option String)
    (files : List GoFile) : Except Fail (List (String × List Field)) :=
  getFieldsFiles readOk parseErr files []

/-- The structMap construction of getStructs (testable.go lines 248-277):
first one entry per receiver type with its methods; then the field map is
merged in, but ONLY onto existing entries — the `Struct` freshly created for
a field-only struct is never stored back into the map, so a struct with
fields and no methods is dropped. -/
def buildStructMap (methods : List (String × List Method))
    (fields : List (String × List Field)) : List (String × Struct) :=
  let m1 := methods.foldl
    (fun acc kv => insertA acc kv.1 { Name := kv.1, Methods := kv.2 }) []
  fields.foldl
    (fun acc kv =>
      match lookupA acc kv.1 with
      | some st => insertA acc kv.1 { st with Fields := kv.2 }
      | none => acc) m1

/-- getStructs' final loop (testable.go lines 279-282) ranges over the Go map
`structMap`; `enum` is the unspecified iteration order (a faithful run
enumerates each key of the map exactly once). -/
def getStructs (methods : List (String × List Method))
    (fields : List (String × List Field)) (enum : List String) : List Struct :=
  enum.filterMap (fun k => lookupA (buildStructMap methods fields) k)

/-- parsePkg's file filter (testable.go lines 210-212): keep a file exactly
when its name does NOT contain the substring "test". -/
def parsePkgFilter (files : List GoFile) : List GoFile :=
  files.filter (fun f => !containsGo f.name "test")

/-- Struct extraction for one parsed subpackage (getStructs, testable.go
lines 247-285), from the files kept by parsePkg. -/
def extractStructs (readOk : String → Bool) (parseErr : String → Option String)
    (files : List GoFile) (enum : List String) : Except Fail (List Struct) :=
  match getFields readOk parseErr files with
  | .error e => .error e
  | .ok fieldMap => .ok (getStructs (getMethods readOk files) fieldMap enum)

/-- One subpackage of getSubpackages (testable.go lines 216-241): the files of
the directory are filtered by parsePkg, then structs are extracted;
`getFunctions` always yields the empty list. -/
def subpackageOf (importPath name : String) (readOk : String → Bool)
    (parseErr : String → Option String) (dirFiles : List GoFile)
    (enum : List String) : Except Fail Package :=
  match extractStructs readOk parseErr (parsePkgFilter dirFiles) enum with
  | .error e => .error e
  | .ok sts => .ok { Name := name, Structs := sts, ImportPath := importPath }

/-! ### Rendering (the text/template layer)

The templates in `buildIfaces`, `buildImpls` and `genCode` contain no trim
markers, so `text/template` emits every literal byte of the template verbatim
and each `range` body once per element; the renderers below spell out exactly
that output.  Braces that the templates emit are written `\x7b`/`\x7d`. -/

/-- Concatenation of rendered fragments (what repeated `range` bodies write
into the output buffer). -/
def strJoin : List String → String
  | [] => ""
  | s :: rest => s ++ strJoin rest

/-- The `toList`/`argList` accumulation pattern (testable.go lines 403-411,
450-468): walk the fields keeping a `prefix` that is empty for the first
element and ", " afterwards, rendering each field with `render`. -/
def toListGo (render : Field → String) (fields : List Field) : String :=
  (fields.foldl (fun st f => (st.1 ++ st.2 ++ render f, ", ")) ("", "")).1

/-- How `buildIfaces`' `toList` renders one field (testable.go line 407):
name, space, type. -/
def ifaceRenderField (f : Field) : String := f.Name ++ " " ++ f.Typ

/-- pkgContainsType (testable.go lines 504-511). -/
def pkgContainsType (pkg : Package) (typ : String) : Bool :=
  pkg.Structs.any (fun st => st.Name == typ)

/-- maybeAddIfacePkg (testable.go lines 513-529): strip one leading `*`
(`typ[0]` — Go panics on the empty string; every extracted type text is a
non-empty source slice, and the empty case here falls through unstarred),
qualify a type declared in the package with `pkg.Name + "iface."`, and
restore the `*`. -/
def maybeAddIfacePkg (pkg : Package) (typ : String) : String :=
  let isPtr : Bool := match typ.data with
    | '*' :: _ => true
    | _ => false
  let typ1 := if isPtr then String.mk typ.data.tail else typ
  let typ2 := if pkgContainsType pkg typ1 then pkg.Name ++ "iface." ++ typ1 else typ1
  if isPtr then "*" ++ typ2 else typ2

/-- How `buildImpls`' `toList` renders one field (testable.go lines 453-455):
name, space, type passed through maybeAddIfacePkg. -/
def implRenderField (pkg : Package) (f : Field) : String :=
  f.Name ++ " " ++ maybeAddIfacePkg pkg f.Typ

/-- argList (testable.go lines 461-469): the comma-separated parameter NAMES,
in order. -/
def argListGo (fields : List Field) : String :=
  (fields.foldl (fun st f => (st.1 ++ st.2 ++ f.Name, ", ")) ("", "")).1

/-- The field-accessor signature the interface template emits for one field
(testable.go line 393): the field's name as a nullary method returning the
field's type. -/
def ifaceAccessorText (f : Field) : String := f.Name ++ "() " ++ f.Typ

/-- The method signature the interface template emits for one method
(testable.go line 397). -/
def ifaceSigText (m : Method) : String :=
  m.Name ++ "(" ++ toListGo ifaceRenderField m.Params ++ ") (" ++
  toListGo ifaceRenderField m.Results ++ ")"

/-- The interface template of buildIfaces (testable.go lines 390-400) applied
to one struct: header, one nullary accessor signature per field, a blank
separator, one method signature per method, closing brace. -/
def renderIface (st : Struct) : String :=
  "\ntype " ++ st.Name ++ " interface \x7b\n" ++
  strJoin (st.Fields.map (fun f => "\n    " ++ ifaceAccessorText f ++ "\n")) ++
  "\n\n" ++
  strJoin (st.Methods.map (fun m => "\n    " ++ ifaceSigText m ++ "\n")) ++
  "\n\x7d\n"

/-- buildIfaces' loop (testable.go lines 417-424): execute the interface
template once per struct of the package, appending each rendering.  The
constant template parses successfully and its execution cannot fail, so the
error return is always nil. -/
def buildIfaces (pkg : Package) : List String :=
  pkg.Structs.foldl (fun ifaces st => ifaces ++ [renderIface st]) []

/-- The method signature the impl template emits for one method (testable.go
line 444): like the interface signature but with every type passed through
maybeAddIfacePkg. -/
def implSigText (pkg : Package) (m : Method) : String :=
  m.Name ++ "(" ++ toListGo (implRenderField pkg) m.Params ++ ") (" ++
  toListGo (implRenderField pkg) m.Results ++ ")"

/-- The forwarding-method text the impl template emits for one method
(testable.go lines 443-447): the signature and a body that returns
`x.parent.M(...)` applied to the `argList` of the parameters. -/
def implMethodText (pkg : Package) (st : Struct) (m : Method) : String :=
  "\nfunc (x *" ++ st.Name ++ ") " ++ implSigText pkg m ++
  " \x7b\n    return x.parent." ++ m.Name ++ "(" ++ argListGo m.Params ++ ")\n\x7d\n"

/-- The accessor text the impl template emits for one field (testable.go
lines 437-441): a nullary method returning the embedded original's field. -/
def implAccessorText (pkg : Package) (st : Struct) (f : Field) : String :=
  "\nfunc (x *" ++ st.Name ++ ")" ++ f.Name ++ "() (" ++
  maybeAddIfacePkg pkg f.Typ ++ ") \x7b\n    return x.parent." ++ f.Name ++ "\n\x7d\n"

/-- The impl template of buildImpls (testable.go lines 432-448) applied to one
struct: the wrapper type embedding `parent *pkg.Struct`, one accessor per
field, one forwarding method per method. -/
def renderImpl (pkg : Package) (st : Struct) : String :=
  "\ntype " ++ st.Name ++ " struct \x7b\n    parent *" ++ pkg.Name ++ "." ++
  st.Name ++ "\n\x7d\n\n" ++
  strJoin (st.Fields.map (fun f => implAccessorText pkg st f)) ++
  "\n\n" ++
  strJoin (st.Methods.map (fun m => implMethodText pkg st m)) ++
  "\n"

/-- buildImpls' loop (testable.go lines 482-499). -/
def buildImpls (pkg : Package) : List String :=
  pkg.Structs.foldl (fun impls st => impls ++ [renderImpl pkg st]) []

/-- The iface package template of genCode (testable.go lines 125-132) applied
to a subpackage name and its rendered interfaces. -/
def ifacePkgText (name : String) (ifaces : List String) : String :=
  "\n// Auto generated code DO NOT EDIT\npackage " ++ name ++ "iface\n\n" ++
  strJoin (ifaces.map (fun s => "\n" ++ s ++ "\n")) ++ "\n"

/-- The impl package template of genCode (testable.go lines 134-144) applied
to a subpackage name, its rendered implementations, the import path, and the
base package. -/
def implPkgText (name : String) (impls : List String)
    (importPath basePkg : String) : String :=
  "\n// Auto generated code DO NOT EDIT\npackage " ++ name ++
  "\n\nimport \"" ++ importPath ++ "\"\nimport \"" ++ basePkg ++ "/" ++ name ++
  "iface\"\n\n" ++ strJoin (impls.map (fun s => "\n" ++ s ++ "\n")) ++ "\n"

/-! ### genCode (testable.go lines 119-206)

The fallible library calls genCode makes are gathered into an effects record,
so that its error flow — which errors it checks and which it drops — is
explicit and can be instantiated both with the concrete renderers above and
with failing stubs. -/

/-- The fallible steps genCode performs per subpackage: building the interface
and implementation renderings, parsing the two constant templates, executing
them (an execution yields the buffer contents plus a possible error), and
`format.Source`. -/
structure GenEffects where
  buildIfacesE : Package → Except String (List String)
  ifaceTmplParseE : Except String Unit
  execIfaceE : String → List String → String × Option String
  formatSourceE : String → Except String String
  buildImplsE : Package → Except String (List String)
  implTmplParseE : Except String Unit
  execImplE : String → List String → String → String → String × Option String

/-- The subpackage loop of genCode (testable.go lines 147-203), mirroring its
error checks statement by statement.  The iface template execution error
(line 160, `err = tmpl.Execute(...)`) and the impl template execution error
(line 184) are assigned but never checked before the next `:=` overwrites
them: both are dropped here exactly as in the source, and `format.Source`
runs on whatever the buffer holds. -/
def genCodeLoop (fx : GenEffects) (basePkg : String) :
    List (String × Package) → List (String × String) → List (String × String) →
    Except String (List (String × String) × List (String × String))
  | [], ifacePkgsMap, implPkgsMap => .ok (ifacePkgsMap, implPkgsMap)
  | (subpkgName, subpkg) :: rest, ifacePkgsMap, implPkgsMap =>
    match fx.buildIfacesE subpkg with
    | .error e => .error e
    | .ok ifaces =>
      match fx.ifaceTmplParseE with
      | .error e => .error e
      | .ok _ =>
        let ifaceExec := fx.execIfaceE subpkgName ifaces
        match fx.formatSourceE ifaceExec.1 with
        | .error e => .error e
        | .ok ifacePkg =>
          match fx.buildImplsE subpkg with
          | .error e => .error e
          | .ok impls =>
            match fx.implTmplParseE with
            | .error e => .error e
            | .ok _ =>
              let implExec := fx.execImplE subpkgName impls subpkg.ImportPath basePkg
              match fx.formatSourceE implExec.1 with
              | .error e => .error e
              | .ok implPkg =>
                genCodeLoop fx basePkg rest
                  (insertA ifacePkgsMap (subpkgName ++ "iface") ifacePkg)
                  (insertA implPkgsMap subpkgName implPkg)

/-- genCode (testable.go lines 119-206): get the subpackages (any error is
returned at once), then run the per-subpackage loop with empty result maps. -/
def genCodeE (fx : GenEffects) (subpkgsE : Except String (List (String × Package)))
    (basePkg : String) :
    Except String (List (String × String) × List (String × String)) :=
  match subpkgsE with
  | .error e => .error e
  | .ok subpkgs => genCodeLoop fx basePkg subpkgs [] []

/-- The concrete effects of a real run: the renderers above never fail, the
two constant templates parse, executions fill the buffer and return a nil
error; `format.Source` (gofmt) stays a parameter. -/
def stdEffects (format : String → Except String String) : GenEffects :=
  { buildIfacesE := fun p => .ok (buildIfaces p)
    ifaceTmplParseE := .ok ()
    execIfaceE := fun name ifaces => (ifacePkgText name ifaces, none)
    formatSourceE := format
    buildImplsE := fun p => .ok (buildImpls p)
    implTmplParseE := .ok ()
    execImplE := fun name impls importPath basePkg =>
      (implPkgText name impls importPath basePkg, none) }

/-- genCode on a concrete run (testable.go lines 119-206 with the concrete
renderers). -/
def genCodeRun (format : String → Except String String)
    (subpkgs : List (String × Package)) (basePkg : String) :
    Except String (List (String × String) × List (String × String)) :=
  genCodeLoop (stdEffects format) basePkg subpkgs [] []

/-! ### main's error handling (testable.go lines 61-117) -/

/-- Model of `fmt.Fprintf(w, format)` applied to a format string with NO
operands, for verbs without flags or widths: `%%` prints one percent sign, a
trailing `%` prints `%!(NOVERB)`, and any other verb has no operand and
prints `%!v(MISSING)` for its verb character `v`; every other byte is copied
verbatim. -/
def fprintfFmtNoArgs : List Char → List Char
  | [] => []
  | c :: rest =>
    if c = '%' then
      match rest with
      | [] => "%!(NOVERB)".data
      | v :: rest2 =>
        if v = '%' then '%' :: fprintfFmtNoArgs rest2
        else '%' :: '!' :: v :: ("(MISSING)".data ++ fprintfFmtNoArgs rest2)
    else c :: fprintfFmtNoArgs rest

/-- main's error branch (testable.go lines 81-84 and the identical branches
at 71-75, 88-99, 104-115): `fmt.Fprintf(os.Stderr, err.Error())` — the error
string is used as the FORMAT string — followed by `os.Exit(1)`.  The result
is the text written to standard error and the exit status. -/
def mainErrExit (e : String) : String × Nat :=
  (String.mk (fprintfFmtNoArgs e.data), 1)

/-! ### Basic lemmas about the embedding -/

theorem containsGo_of_substr {s sub : String} (h : sub.data <:+: s.data) :
    containsGo s sub = true := by
  simp [containsGo, h]

theorem infix_appendL {t : List Char} {a m : String} (h : t <:+: m.data) :
    t <:+: (a ++ m).data := by
  rw [String.data_append]
  exact h.trans (List.suffix_append _ _).isInfix

theorem infix_appendR {t : List Char} {m b : String} (h : t <:+: m.data) :
    t <:+: (m ++ b).data := by
  rw [String.data_append]
  exact h.trans (List.prefix_append _ _).isInfix

theorem infix_strJoin_of_mem {s : String} {l : List String} (h : s ∈ l) :
    s.data <:+: (strJoin l).data := by
  induction l with
  | nil => cases h
  | cons x xs ih =>
    rcases List.mem_cons.mp h with h1 | h1
    · subst h1
      exact infix_appendR List.infix_rfl
    · exact infix_appendL (ih h1)

theorem foldl_append_eq_map {α β : Type} (f : α → β) :
    ∀ (l : List α) (acc : List β),
      l.foldl (fun acc x => acc ++ [f x]) acc = acc ++ l.map f := by
  intro l
  induction l with
  | nil => intro acc; simp
  | cons x xs ih => intro acc; simp [ih]

theorem foldl_filter_append_eq_map {α β : Type} (p : α → Bool) (g : α → β) :
    ∀ (l : List α) (acc : List β),
      l.foldl (fun acc x => if p x then acc ++ [g x] else acc) acc =
        acc ++ (l.filter p).map g := by
  intro l
  induction l with
  | nil => intro acc; simp
  | cons x xs ih =>
    intro acc
    by_cases h : p x <;> simp [h, ih]

theorem buildIfaces_eq_map (pkg : Package) :
    buildIfaces pkg = pkg.Structs.map renderIface := by
  unfold buildIfaces
  rw [foldl_append_eq_map]
  simp

theorem buildImpls_eq_map (pkg : Package) :
    buildImpls pkg = pkg.Structs.map (renderImpl pkg) := by
  unfold buildImpls
  rw [foldl_append_eq_map]
  simp

theorem getMethodFields_eq_map (afs : List AstField) :
    getMethodFields afs =
      afs.map (fun af => { Name := af.names.headD "", Typ := af.typeSrc }) := by
  unfold getMethodFields
  rw [foldl_append_eq_map]
  simp

theorem extractExportedFields_eq (afs : List AstField) :
    extractExportedFields afs =
      (afs.filter (fun af => !af.names.isEmpty && isExportedGo (af.names.headD ""))).map
        (fun af => { Name := af.names.headD "", Typ := af.typeSrc }) := by
  unfold extractExportedFields
  rw [foldl_filter_append_eq_map]
  simp

/-- Comma-separated join: what the `prefix` trick of `toList`/`argList`
produces. -/
def joinComma : List String → String
  | [] => ""
  | s :: rest => s ++ strJoin (rest.map (fun t => ", " ++ t))

theorem toListGo_foldl_aux (r : Field → String) :
    ∀ (fs : List Field) (a : String),
      (fs.foldl (fun st f => (st.1 ++ st.2 ++ r f, ", ")) (a, ", ")).1 =
        a ++ strJoin (fs.map (fun f => ", " ++ r f)) := by
  intro fs
  induction fs with
  | nil => intro a; simp [strJoin, String.append_empty]
  | cons f rest ih =>
    intro a
    simp only [List.foldl_cons, List.map_cons, strJoin]
    rw [ih]
    rw [String.append_assoc, String.append_assoc, String.append_assoc]

theorem toListGo_eq_joinComma (r : Field → String) (fs : List Field) :
    toListGo r fs = joinComma (fs.map r) := by
  cases fs with
  | nil => rfl
  | cons f rest =>
    unfold toListGo joinComma
    simp only [List.foldl_cons, List.map_cons]
    rw [String.empty_append, String.empty_append]
    rw [toListGo_foldl_aux]
    rw [List.map_map]
    rfl

theorem argListGo_eq_joinComma (fs : List Field) :
    argListGo fs = joinComma (fs.map Field.Name) :=
  toListGo_eq_joinComma (fun f => f.Name) fs

theorem toListGo_congr {r1 r2 : Field → String} {fs : List Field}
    (h : ∀ f ∈ fs, r1 f = r2 f) : toListGo r1 fs = toListGo r2 fs := by
  rw [toListGo_eq_joinComma, toListGo_eq_joinComma]
  exact congrArg joinComma (List.map_congr_left h)

theorem splitGoAux_not_mem (sep : Char) :
    ∀ (xs acc : List Char), sep ∉ xs →
      splitGoAux sep xs acc = [acc.reverse ++ xs] := by
  intro xs
  induction xs with
  | nil => intro acc _; simp [splitGoAux]
  | cons c rest ih =>
    intro acc h
    have hc : ¬c = sep := fun hc => h (hc ▸ List.mem_cons_self c rest)
    have hrest : sep ∉ rest := fun hm => h (List.mem_cons_of_mem _ hm)
    simp only [splitGoAux, if_neg hc]
    rw [ih (c :: acc) hrest]
    simp

theorem splitGoAux_split (sep : Char) :
    ∀ (xs : List Char), sep ∉ xs → ∀ (acc ys : List Char),
      splitGoAux sep (xs ++ sep :: ys) acc =
        (acc.reverse ++ xs) :: splitGoAux sep ys [] := by
  intro xs
  induction xs with
  | nil => intro _ acc ys; simp [splitGoAux]
  | cons c rest ih =>
    intro h acc ys
    have hc : ¬c = sep := fun hc => h (hc ▸ List.mem_cons_self c rest)
    have hrest : sep ∉ rest := fun hm => h (List.mem_cons_of_mem _ hm)
    simp only [List.cons_append, splitGoAux, if_neg hc, List.append_eq]
    rw [ih hrest (c :: acc) ys]
    simp

/-- C8: getStructName splits the line holding the struct type's position on
single spaces and unconditionally takes the second token: on a line with
fewer than two space-separated tokens the index is out of range and there is
no defined result (the run panics, modelled by `none`), and on a declaration
line of the shape `type Name struct ...` it is defined and yields `Name`. -/
theorem c8_getStructName_secondToken :
    ∀ (src : String) (n : Nat) (line : String),
      (splitGo src '\n')[n - 1]? = some line →
      getStructName src n = (splitGo line ' ')[1]? ∧
      ((splitGo line ' ').length < 2 → getStructName src n = none) ∧
      (∀ nm rest : String, line = "type " ++ nm ++ " struct" ++ rest →
         nm.data ≠ [] → (∀ c ∈ nm.data, c ≠ ' ') → getStructName src n = some nm) := by
  intro src n line h
  have hbase : getStructName src n = (splitGo line ' ')[1]? := by
    unfold getStructName
    rw [h]
  refine ⟨hbase, ?_, ?_⟩
  · intro hlen
    rw [hbase]
    exact List.getElem?_eq_none (by omega)
  · intro nm rest hline hnm hns
    have hnosep : ' ' ∉ nm.data := fun hm => hns ' ' hm rfl
    have hdata : line.data =
        ['t', 'y', 'p', 'e'] ++ ' ' ::
          (nm.data ++ (' ' :: ("struct".data ++ rest.data))) := by
      rw [hline, String.data_append, String.data_append, String.data_append]
      have h1 : "type ".data = ['t', 'y', 'p', 'e', ' '] := rfl
      have h2 : " struct".data = ' ' :: "struct".data := rfl
      rw [h1, h2]
      simp
    have htokens : splitGoAux ' ' line.data [] =
        ['t', 'y', 'p', 'e'] :: nm.data ::
          splitGoAux ' ' ("struct".data ++ rest.data) [] := by
      rw [hdata]
      rw [splitGoAux_split ' ' ['t', 'y', 'p', 'e'] (by decide) []]
      rw [splitGoAux_split ' ' nm.data hnosep []]
      simp
    rw [hbase]
    unfold splitGo
    rw [htokens]
    have : String.mk nm.data = nm := rfl
    simp [this]

/-- C8 witness: on a source whose second line is `type Foo struct` followed
by an opening brace, getStructName recovers `Foo`. -/
theorem c8_getStructName_secondToken_witness :
    getStructName "package main\ntype Foo struct \x7b" 2 = some "Foo" :=
  (c8_getStructName_secondToken "package main\ntype Foo struct \x7b" 2
      "type Foo struct \x7b" (by decide)).2.2 "Foo" " \x7b" (by decide) (by decide)
      (by decide)

theorem fprintfFmtNoArgs_no_pct :
    ∀ (l : List Char), (∀ c ∈ l, c ≠ '%') → fprintfFmtNoArgs l = l := by
  intro l
  induction l with
  | nil => intro _; rfl
  | cons c rest ih =>
    intro h
    have hc : ¬c = '%' := h c (List.mem_cons_self c rest)
    rw [fprintfFmtNoArgs.eq_def]
    simp only [if_neg hc]
    rw [ih (fun d hd => h d (List.mem_cons_of_mem _ hd))]

/-- C6 (amended): every error surfaced to main terminates the run with exit
status 1 and is written to standard error through `Fprintf` with the error
message as the FORMAT string, so it is verbatim exactly when the message
contains no `%`. -/
theorem c6_amended_error_surface :
    ∀ e : String,
      (mainErrExit e).2 = 1 ∧
      (mainErrExit e).1 = String.mk (fprintfFmtNoArgs e.data) ∧
      ((∀ c ∈ e.data, c ≠ '%') → (mainErrExit e).1 = e) := by
  intro e
  refine ⟨rfl, rfl, ?_⟩
  intro h
  show String.mk (fprintfFmtNoArgs e.data) = e
  rw [fprintfFmtNoArgs_no_pct e.data h]

/-- C6 witness: a percent-free error message is written verbatim and the exit
status is 1. -/
theorem c6_amended_error_surface_witness :
    (mainErrExit "parse failed").1 = "parse failed" ∧ (mainErrExit "parse failed").2 = 1 :=
  ⟨(c6_amended_error_surface "parse failed").2.2 (by decide),
   (c6_amended_error_surface "parse failed").1⟩

/-- C6 counterexample: an error message containing a `%` verb is NOT written
verbatim — `Fprintf` interprets it as a format directive with a missing
operand. -/
theorem c6_counterexample :
    mainErrExit "open file%s: permission denied" =
      ("open file%!s(MISSING): permission denied", 1) ∧
    "open file%!s(MISSING): permission denied" ≠ "open file%s: permission denied" := by
  constructor
  · rfl
  · decide

theorem infix_renderIface_of_field {st : Struct} {f : Field} (hf : f ∈ st.Fields) :
    (ifaceAccessorText f).data <:+: (renderIface st).data := by
  unfold renderIface
  apply infix_appendR
  apply infix_appendR
  apply infix_appendR
  apply infix_appendL
  exact (infix_appendR (infix_appendL List.infix_rfl)).trans
    (infix_strJoin_of_mem (List.mem_map_of_mem _ hf))

theorem infix_renderIface_of_sig {st : Struct} {m : Method} (hm : m ∈ st.Methods) :
    (ifaceSigText m).data <:+: (renderIface st).data := by
  unfold renderIface
  apply infix_appendR
  apply infix_appendL
  exact (infix_appendR (infix_appendL List.infix_rfl)).trans
    (infix_strJoin_of_mem (List.mem_map_of_mem _ hm))

theorem infix_renderIface_header (st : Struct) :
    ("type " ++ st.Name ++ " interface \x7b").data <:+: (renderIface st).data := by
  unfold renderIface
  apply infix_appendR
  apply infix_appendR
  apply infix_appendR
  apply infix_appendR
  have e1 : ("\ntype " ++ st.Name ++ " interface \x7b\n") =
      "\n" ++ ("type " ++ st.Name ++ " interface \x7b") ++ "\n" := by
    have a1 : ("\ntype " : String) = "\n" ++ "type " := by decide
    have a2 : (" interface \x7b\n" : String) = " interface \x7b" ++ "\n" := by decide
    rw [a1, a2]
    simp only [String.append_assoc]
  rw [e1]
  exact infix_appendR (infix_appendL List.infix_rfl)

theorem infix_renderImpl_of_accessor {pkg : Package} {st : Struct} {f : Field}
    (hf : f ∈ st.Fields) :
    (implAccessorText pkg st f).data <:+: (renderImpl pkg st).data := by
  unfold renderImpl
  apply infix_appendR
  apply infix_appendR
  apply infix_appendR
  apply infix_appendL
  exact infix_strJoin_of_mem (List.mem_map_of_mem _ hf)

theorem infix_renderImpl_of_method {pkg : Package} {st : Struct} {m : Method}
    (hm : m ∈ st.Methods) :
    (implMethodText pkg st m).data <:+: (renderImpl pkg st).data := by
  unfold renderImpl
  apply infix_appendR
  apply infix_appendL
  exact infix_strJoin_of_mem (List.mem_map_of_mem _ hm)

theorem infix_implSig_implMethod (pkg : Package) (st : Struct) (m : Method) :
    (implSigText pkg m).data <:+: (implMethodText pkg st m).data := by
  unfold implMethodText
  apply infix_appendR
  apply infix_appendR
  apply infix_appendR
  apply infix_appendR
  apply infix_appendR
  apply infix_appendL
  exact List.infix_rfl

/-! ### C1 — forwarding wrappers -/

/-- A package with one extracted struct `Widget` whose method takes a
parameter of type `*Widget`, the package's own struct type. -/
def mC1 : Method := { Name := "Use", Params := [{ Name := "w", Typ := "*Widget" }], Results := [] }

def stC1 : Struct := { Name := "Widget", Methods := [mC1], Fields := [] }

def pkgC1 : Package := { Name := "wpkg", Structs := [stC1], ImportPath := "a/wpkg" }

/-- C1 counterexample: the wrapper method does NOT carry the same parameter
list as the original — the original's parameter `w *Widget` is rendered on
the wrapper as `w *wpkgiface.Widget` (maybeAddIfacePkg qualifies types that
name a struct of the package), while the interface keeps `w *Widget`. -/
theorem c1_counterexample :
    renderImpl pkgC1 stC1 ∈ buildImpls pkgC1 ∧
    containsGo (renderImpl pkgC1 stC1) "Use(w *wpkgiface.Widget)" = true ∧
    containsGo (renderImpl pkgC1 stC1) "Use(w *Widget)" = false ∧
    containsGo (renderIface stC1) "Use(w *Widget)" = true := by
  refine ⟨?_, ?_, ?_, ?_⟩ <;> decide

/-- C1 (amended): every extracted method appears on the wrapper as a
forwarding method: the wrapper renders the method with the same name, the
same parameter and result NAMES in the same order, and each type passed
through maybeAddIfacePkg (identical to the original except when the type
names one of the package's extracted structs, possibly behind a leading
`*`); the body calls the embedded original's method through `x.parent`
passing exactly the parameter names, comma-separated, in order, and returns
the result. -/
theorem c1_amended_forwarding :
    ∀ (pkg : Package) (st : Struct) (m : Method), st ∈ pkg.Structs → m ∈ st.Methods →
      renderImpl pkg st ∈ buildImpls pkg ∧
      containsGo (renderImpl pkg st) (implMethodText pkg st m) = true ∧
      implSigText pkg m =
        m.Name ++ "(" ++
          joinComma (m.Params.map (fun f => f.Name ++ " " ++ maybeAddIfacePkg pkg f.Typ)) ++
          ") (" ++
          joinComma (m.Results.map (fun f => f.Name ++ " " ++ maybeAddIfacePkg pkg f.Typ)) ++
          ")" ∧
      argListGo m.Params = joinComma (m.Params.map Field.Name) ∧
      implMethodText pkg st m =
        "\nfunc (x *" ++ st.Name ++ ") " ++ implSigText pkg m ++
          " \x7b\n    return x.parent." ++ m.Name ++ "(" ++ argListGo m.Params ++
          ")\n\x7d\n" := by
  intro pkg st m hst hm
  refine ⟨?_, ?_, ?_, argListGo_eq_joinComma m.Params, rfl⟩
  · rw [buildImpls_eq_map]
    exact List.mem_map_of_mem _ hst
  · exact containsGo_of_substr (infix_renderImpl_of_method hm)
  · unfold implSigText
    rw [toListGo_eq_joinComma, toListGo_eq_joinComma]
    rfl

/-- C1 witness data: a package whose method types are untouched by
maybeAddIfacePkg. -/
def mW1 : Method :=
  { Name := "Run", Params := [{ Name := "n", Typ := "int" }],
    Results := [{ Name := "r", Typ := "error" }] }

def stW1 : Struct := { Name := "Cli", Methods := [mW1], Fields := [] }

def pkgW1 : Package := { Name := "cpkg", Structs := [stW1], ImportPath := "a/cpkg" }

/-- C1 witness: the forwarding-method text of `Run` occurs in the wrapper
rendered for `Cli`. -/
theorem c1_amended_forwarding_witness :
    containsGo (renderImpl pkgW1 stW1) (implMethodText pkgW1 stW1 mW1) = true :=
  (c1_amended_forwarding pkgW1 stW1 mW1 (by decide) (by decide)).2.1

/-! ### C2 — interface and wrapper surfaces -/

def mC2 : Method := { Name := "Bar", Params := [{ Name := "w", Typ := "Foo" }], Results := [] }

def stC2 : Struct := { Name := "Foo", Methods := [mC2], Fields := [] }

def pkgC2 : Package := { Name := "mypkg", Structs := [stC2], ImportPath := "x/mypkg" }

/-- C2 counterexample: the method signature rendered into the interface is
NOT identical to the signature rendered onto the wrapper when a parameter
type names a struct of the package: the interface says `Bar(w Foo) ()`, the
wrapper says `Bar(w mypkgiface.Foo) ()`. -/
theorem c2_counterexample :
    containsGo (renderIface stC2) "Bar(w Foo) ()" = true ∧
    containsGo (renderImpl pkgC2 stC2) "Bar(w Foo) ()" = false ∧
    implSigText pkgC2 mC2 ≠ ifaceSigText mC2 := by
  refine ⟨?_, ?_, ?_⟩ <;> decide

/-- C2 (amended): interface and wrapper describe the same surface up to
interface-package qualification: for every extracted field the interface
declares the nullary accessor `F() T` and the wrapper defines `F()` returning
`x.parent.F` with result type `maybeAddIfacePkg T` (equal to `T` whenever
maybeAddIfacePkg leaves it unchanged); every method signature rendered into
the interface also appears on the wrapper with the same parameter and result
names, the types passed through maybeAddIfacePkg, and the two signatures are
character-for-character identical whenever no parameter or result type is
qualified. -/
theorem c2_amended_surface :
    ∀ (pkg : Package) (st : Struct), st ∈ pkg.Structs →
      (renderIface st ∈ buildIfaces pkg ∧ renderImpl pkg st ∈ buildImpls pkg) ∧
      (∀ f ∈ st.Fields,
         containsGo (renderIface st) (ifaceAccessorText f) = true ∧
         ifaceAccessorText f = f.Name ++ "() " ++ f.Typ ∧
         containsGo (renderImpl pkg st) (implAccessorText pkg st f) = true ∧
         (maybeAddIfacePkg pkg f.Typ = f.Typ →
            implAccessorText pkg st f =
              "\nfunc (x *" ++ st.Name ++ ")" ++ f.Name ++ "() (" ++ f.Typ ++
              ") \x7b\n    return x.parent." ++ f.Name ++ "\n\x7d\n")) ∧
      (∀ m ∈ st.Methods,
         containsGo (renderIface st) (ifaceSigText m) = true ∧
         containsGo (renderImpl pkg st) (implSigText pkg m) = true ∧
         ((∀ f ∈ m.Params, maybeAddIfacePkg pkg f.Typ = f.Typ) →
          (∀ f ∈ m.Results, maybeAddIfacePkg pkg f.Typ = f.Typ) →
            implSigText pkg m = ifaceSigText m)) := by
  intro pkg st hst
  refine ⟨⟨?_, ?_⟩, ?_, ?_⟩
  · rw [buildIfaces_eq_map]
    exact List.mem_map_of_mem _ hst
  · rw [buildImpls_eq_map]
    exact List.mem_map_of_mem _ hst
  · intro f hf
    refine ⟨containsGo_of_substr (infix_renderIface_of_field hf), rfl,
      containsGo_of_substr (infix_renderImpl_of_accessor hf), ?_⟩
    intro hty
    unfold implAccessorText
    rw [hty]
  · intro m hm
    refine ⟨containsGo_of_substr (infix_renderIface_of_sig hm),
      containsGo_of_substr ((infix_implSig_implMethod pkg st m).trans
        (infix_renderImpl_of_method hm)), ?_⟩
    intro hp hr
    unfold implSigText ifaceSigText
    rw [@toListGo_congr (implRenderField pkg) ifaceRenderField m.Params
        (fun f hf => by unfold implRenderField ifaceRenderField; rw [hp f hf]),
      @toListGo_congr (implRenderField pkg) ifaceRenderField m.Results
        (fun f hf => by unfold implRenderField ifaceRenderField; rw [hr f hf])]

/-- C2 witness data: a struct whose field and method types are untouched by
maybeAddIfacePkg. -/
def mW2 : Method :=
  { Name := "Add", Params := [{ Name := "n", Typ := "int" }],
    Results := [{ Name := "r", Typ := "int" }] }

def stW2 : Struct :=
  { Name := "Acct", Methods := [mW2], Fields := [{ Name := "Bal", Typ := "int" }] }

def pkgW2 : Package := { Name := "p2", Structs := [stW2], ImportPath := "a/p2" }

/-- C2 witness: for plain types the two rendered signatures coincide. -/
theorem c2_amended_surface_witness :
    implSigText pkgW2 mW2 = ifaceSigText mW2 :=
  ((c2_amended_surface pkgW2 stW2 (by decide)).2.2 mW2 (by decide)).2.2
    (by decide) (by decide)

/-! ### C5 — the interface renderer -/

/-- C5: buildIfaces emits exactly one interface rendering per extracted
struct, in order; the rendering declares an interface named after the
struct, contains the nullary accessor `F() T` for every extracted field and
the signature (name, comma-joined parameter list, comma-joined result list)
for every extracted method. -/
theorem c5_interface_rendering :
    ∀ (pkg : Package),
      buildIfaces pkg = pkg.Structs.map renderIface ∧
      (buildIfaces pkg).length = pkg.Structs.length ∧
      ∀ st ∈ pkg.Structs,
        renderIface st ∈ buildIfaces pkg ∧
        containsGo (renderIface st) ("type " ++ st.Name ++ " interface \x7b") = true ∧
        (∀ f ∈ st.Fields,
           containsGo (renderIface st) (ifaceAccessorText f) = true ∧
           ifaceAccessorText f = f.Name ++ "() " ++ f.Typ) ∧
        (∀ m ∈ st.Methods,
           containsGo (renderIface st) (ifaceSigText m) = true ∧
           ifaceSigText m =
             m.Name ++ "(" ++ joinComma (m.Params.map ifaceRenderField) ++ ") (" ++
             joinComma (m.Results.map ifaceRenderField) ++ ")") := by
  intro pkg
  refine ⟨buildIfaces_eq_map pkg, ?_, ?_⟩
  · rw [buildIfaces_eq_map]
    exact List.length_map _ _
  · intro st hst
    refine ⟨?_, containsGo_of_substr (infix_renderIface_header st), ?_, ?_⟩
    · rw [buildIfaces_eq_map]
      exact List.mem_map_of_mem _ hst
    · intro f hf
      exact ⟨containsGo_of_substr (infix_renderIface_of_field hf), rfl⟩
    · intro m hm
      refine ⟨containsGo_of_substr (infix_renderIface_of_sig hm), ?_⟩
      unfold ifaceSigText
      rw [toListGo_eq_joinComma, toListGo_eq_joinComma]

/-- C5 witness: the rendered interface for a concrete struct contains its
header, accessor and method signature. -/
theorem c5_interface_rendering_witness :
    containsGo (renderIface stW2) ("type " ++ stW2.Name ++ " interface \x7b") = true ∧
    containsGo (renderIface stW2) (ifaceAccessorText { Name := "Bal", Typ := "int" }) = true ∧
    containsGo (renderIface stW2) (ifaceSigText mW2) = true :=
  ⟨((c5_interface_rendering pkgW2).2.2 stW2 (by decide)).2.1,
   (((c5_interface_rendering pkgW2).2.2 stW2 (by decide)).2.2.1
      { Name := "Bal", Typ := "int" } (by decide)).1,
   (((c5_interface_rendering pkgW2).2.2 stW2 (by decide)).2.2.2 mW2 (by decide)).1⟩

/-! ### C9 — the "test" file filter -/

/-- C9: parsePkg skips every file whose NAME contains the substring "test"
anywhere, and a skipped file contributes nothing: dropping it from the
directory leaves the extracted subpackage unchanged. -/
theorem c9_test_files_skipped :
    ∀ (f : GoFile), containsGo f.name "test" = true →
      (∀ pre post : List GoFile,
         parsePkgFilter (pre ++ f :: post) = parsePkgFilter (pre ++ post)) ∧
      (∀ dirFiles : List GoFile, ∀ g ∈ parsePkgFilter dirFiles,
         containsGo g.name "test" = false) ∧
      (∀ (importPath name : String) (readOk : String → Bool)
         (parseErr : String → Option String) (pre post : List GoFile)
         (enum : List String),
         subpackageOf importPath name readOk parseErr (pre ++ f :: post) enum =
           subpackageOf importPath name readOk parseErr (pre ++ post) enum) := by
  intro f hf
  have hfilter : ∀ pre post : List GoFile,
      parsePkgFilter (pre ++ f :: post) = parsePkgFilter (pre ++ post) := by
    intro pre post
    unfold parsePkgFilter
    rw [List.filter_append, List.filter_append, List.filter_cons]
    simp [hf]
  refine ⟨hfilter, ?_, ?_⟩
  · intro dirFiles g hg
    unfold parsePkgFilter at hg
    have := List.of_mem_filter hg
    simpa using this
  · intro importPath name readOk parseErr pre post enum
    unfold subpackageOf
    rw [hfilter]

def fileKeep : GoFile := { name := "a.go", src := "", decls := [], structNodes := [] }

def fileContest : GoFile := { name := "contest.go", src := "", decls := [], structNodes := [] }

/-- C9 witness: `contest.go` — "test" in the middle of the name, not a
`_test.go` suffix — is skipped, leaving the filtered file list unchanged. -/
theorem c9_test_files_skipped_witness :
    parsePkgFilter ([fileKeep] ++ fileContest :: []) = parsePkgFilter ([fileKeep] ++ []) :=
  (c9_test_files_skipped fileContest (by decide)).1 [fileKeep] []

/-! ### C10 — multi-name declarations keep only the first name -/

/-- The one-declaration-two-names example `A, B int`. -/
def afC10 : AstField := { names := ["A", "B"], typeSrc := "int" }

/-- A struct whose only field declaration is `A, B int`, as extracted. -/
def stC10 : Struct :=
  { Name := "S", Methods := [], Fields := extractExportedFields [afC10] }

/-- C10: for a field or parameter declaration listing several names for one
type, extraction records ONLY the first name with that type: method fields
keep exactly the head name of each declaration, struct fields keep the head
name of each kept declaration (kept exactly when the declaration has a name
and its FIRST name is exported), and for a declaration `A, B int` the
rendered interface has an accessor for `A` only — `B` appears nowhere. -/
theorem c10_first_name_only :
    (∀ afs : List AstField,
       getMethodFields afs =
         afs.map (fun af => { Name := af.names.headD "", Typ := af.typeSrc })) ∧
    (∀ afs : List AstField,
       extractExportedFields afs =
         (afs.filter (fun af => !af.names.isEmpty && isExportedGo (af.names.headD ""))).map
           (fun af => { Name := af.names.headD "", Typ := af.typeSrc })) ∧
    getMethodFields [afC10] = [{ Name := "A", Typ := "int" }] ∧
    extractExportedFields [afC10] = [{ Name := "A", Typ := "int" }] ∧
    containsGo (renderIface stC10) "A() int" = true ∧
    containsGo (renderIface stC10) "B" = false := by
  refine ⟨getMethodFields_eq_map, extractExportedFields_eq, ?_, ?_, ?_, ?_⟩ <;> decide

/-! ### C3 — what the shape extractor records -/

/-- Invariant of the method map: every recorded method list is non-empty and
holds only exported method names. -/
def MethodMapInv (mm : List (String × List Method)) : Prop :=
  ∀ kv ∈ mm, kv.2 ≠ [] ∧ ∀ me ∈ kv.2, isExportedGo me.Name = true

theorem getMethodsDecls_cons (readOk : String → Bool) (file : GoFile) (d : Decl)
    (rest : List Decl) (mm : List (String × List Method)) :
    getMethodsDecls readOk file (d :: rest) mm =
      if readOk file.name = false then getMethodsDecls readOk file rest mm
      else
        match getReceiverTypeName d with
        | (a, some fd) =>
          if isExportedGo fd.name then
            getMethodsDecls readOk file rest
              (insertA mm a ((lookupA mm a).getD [] ++ [mkMethod fd]))
          else getMethodsDecls readOk file rest mm
        | (_, none) => getMethodsDecls readOk file rest mm := rfl

theorem getMethodsDecls_inv (readOk : String → Bool) (file : GoFile) :
    ∀ (ds : List Decl) (mm : List (String × List Method)),
      MethodMapInv mm → MethodMapInv (getMethodsDecls readOk file ds mm) := by
  intro ds
  induction ds with
  | nil => intro mm hmm; exact hmm
  | cons d rest ih =>
    intro mm hmm
    rw [getMethodsDecls_cons]
    split
    · exact ih mm hmm
    · split
      · next a fd _ =>
        split
        · next hexp =>
          apply ih
          intro kv hkv
          rcases mem_insertA hkv with h1 | h1
          · rw [h1]
            refine ⟨by simp, ?_⟩
            intro me hme
            rcases List.mem_append.mp hme with h2 | h2
            · cases hl : lookupA mm a with
              | none => rw [hl] at h2; simp at h2
              | some v =>
                rw [hl] at h2
                exact (hmm (a, v) (lookupA_mem hl)).2 me h2
            · rw [List.mem_singleton.mp h2]
              exact hexp
          · exact hmm kv h1
        · exact ih mm hmm
      · exact ih mm hmm

theorem getMethodsFiles_inv (readOk : String → Bool) :
    ∀ (files : List GoFile) (mm : List (String × List Method)),
      MethodMapInv mm → MethodMapInv (getMethodsFiles readOk files mm) := by
  intro files
  induction files with
  | nil => intro mm hmm; exact hmm
  | cons f rest ih =>
    intro mm hmm
    exact ih _ (getMethodsDecls_inv readOk f f.decls mm hmm)

theorem getMethods_inv (readOk : String → Bool) (files : List GoFile) :
    MethodMapInv (getMethods readOk files) :=
  getMethodsFiles_inv readOk files [] (by intro kv hkv; cases hkv)

/-- Invariant of the field map: every key is an exported struct name and
every recorded field name is exported. -/
def FieldMapInv (fm : List (String × List Field)) : Prop :=
  ∀ kv ∈ fm, isExportedGo kv.1 = true ∧ ∀ fl ∈ kv.2, isExportedGo fl.Name = true

theorem extractExportedFields_exported (afs : List AstField) :
    ∀ fl ∈ extractExportedFields afs, isExportedGo fl.Name = true := by
  intro fl hfl
  rw [extractExportedFields_eq] at hfl
  rcases List.mem_map.mp hfl with ⟨af, haf, hfl2⟩
  have hp := List.of_mem_filter haf
  rw [← hfl2]
  exact (Bool.and_eq_true _ _ |>.mp hp).2

theorem getFieldsNodes_nil (src : String) (fm : List (String × List Field)) :
    getFieldsNodes src [] fm = .ok fm := rfl

theorem getFieldsNodes_cons (src : String) (nd : StructNode) (rest : List StructNode)
    (fm : List (String × List Field)) :
    getFieldsNodes src (nd :: rest) fm =
      match getStructName src nd.line with
      | none => .error .panic
      | some structName =>
        if isExportedGo structName then
          getFieldsNodes src rest (insertA fm structName (extractExportedFields nd.fields))
        else getFieldsNodes src rest fm := rfl

theorem getFieldsNodes_inv (src : String) :
    ∀ (nds : List StructNode) (fm fm2 : List (String × List Field)),
      FieldMapInv fm → getFieldsNodes src nds fm = .ok fm2 → FieldMapInv fm2 := by
  intro nds
  induction nds with
  | nil =>
    intro fm fm2 hfm h
    rw [getFieldsNodes_nil] at h
    cases h
    exact hfm
  | cons nd rest ih =>
    intro fm fm2 hfm h
    rw [getFieldsNodes_cons] at h
    split at h
    · cases h
    · split at h
      · next hexp =>
        apply ih _ _ _ h
        intro kv hkv
        rcases mem_insertA hkv with h1 | h1
        · rw [h1]
          exact ⟨hexp, extractExportedFields_exported nd.fields⟩
        · exact hfm kv h1
      · exact ih _ _ hfm h

theorem getFieldsFiles_nil (readOk : String → Bool) (parseErr : String → Option String)
    (fm : List (String × List Field)) :
    getFieldsFiles readOk parseErr [] fm = .ok fm := rfl

theorem getFieldsFiles_cons (readOk : String → Bool) (parseErr : String → Option String)
    (f : GoFile) (rest : List GoFile) (fm : List (String × List Field)) :
    getFieldsFiles readOk parseErr (f :: rest) fm =
      if readOk f.name = false then getFieldsFiles readOk parseErr rest fm
      else
        match parseErr f.name with
        | some e => .error (.err e)
        | none =>
          match getFieldsNodes f.src f.structNodes fm with
          | .error e => .error e
          | .ok fm2 => getFieldsFiles readOk parseErr rest fm2 := rfl

theorem getFieldsFiles_inv (readOk : String → Bool) (parseErr : String → Option String) :
    ∀ (files : List GoFile) (fm fm2 : List (String × List Field)),
      FieldMapInv fm → getFieldsFiles readOk parseErr files fm = .ok fm2 → FieldMapInv fm2 := by
  intro files
  induction files with
  | nil =>
    intro fm fm2 hfm h
    rw [getFieldsFiles_nil] at h
    cases h
    exact hfm
  | cons f rest ih =>
    intro fm fm2 hfm h
    rw [getFieldsFiles_cons] at h
    split at h
    · exact ih _ _ hfm h
    · split at h
      · cases h
      · split at h
        · cases h
        · next fm3 heq => exact ih _ _ (getFieldsNodes_inv f.src f.structNodes fm fm3 hfm heq) h

theorem getFields_inv (readOk : String → Bool) (parseErr : String → Option String)
    (files : List GoFile) (fm : List (String × List Field))
    (h : getFields readOk parseErr files = .ok fm) : FieldMapInv fm :=
  getFieldsFiles_inv readOk parseErr files [] fm (by intro kv hkv; cases hkv) h

/-- What every entry of the struct map satisfies. -/
def StructMapEntryInv (kv : String × Struct) : Prop :=
  kv.2.Name = kv.1 ∧ kv.2.Methods ≠ [] ∧
    (∀ me ∈ kv.2.Methods, isExportedGo me.Name = true) ∧
    (∀ fl ∈ kv.2.Fields, isExportedGo fl.Name = true) ∧
    (kv.2.Fields ≠ [] → isExportedGo kv.1 = true)

theorem buildStructMap_inv (mm : List (String × List Method))
    (fm : List (String × List Field)) (hmm : MethodMapInv mm) (hfm : FieldMapInv fm) :
    ∀ kv ∈ buildStructMap mm fm, StructMapEntryInv kv := by
  unfold buildStructMap
  have step1 : ∀ (l : List (String × List Method)) (acc : List (String × Struct)),
      (∀ kv ∈ l, kv ∈ mm) →
      (∀ kv ∈ acc, StructMapEntryInv kv ∧ kv.2.Fields = []) →
      ∀ kv ∈ l.foldl (fun acc kv => insertA acc kv.1 { Name := kv.1, Methods := kv.2 }) acc,
        StructMapEntryInv kv ∧ kv.2.Fields = [] := by
    intro l
    induction l with
    | nil => intro acc _ hacc; exact hacc
    | cons hd tl ih =>
      intro acc hsub hacc
      simp only [List.foldl_cons]
      refine ih _ (fun kv hkv => hsub kv (List.mem_cons_of_mem _ hkv)) ?_
      intro kv hkv
      rcases mem_insertA hkv with h1 | h1
      · rw [h1]
        have hhd := hmm hd (hsub hd (List.mem_cons_self _ _))
        exact ⟨⟨rfl, hhd.1, hhd.2, fun fl hfl => absurd hfl (List.not_mem_nil fl),
          fun h2 => absurd rfl h2⟩, rfl⟩
      · exact hacc kv h1
  have step2 : ∀ (l : List (String × List Field)) (acc : List (String × Struct)),
      (∀ kv ∈ l, kv ∈ fm) →
      (∀ kv ∈ acc, StructMapEntryInv kv) →
      ∀ kv ∈ l.foldl (fun acc kv =>
          match lookupA acc kv.1 with
          | some st => insertA acc kv.1 { st with Fields := kv.2 }
          | none => acc) acc,
        StructMapEntryInv kv := by
    intro l
    induction l with
    | nil => intro acc _ hacc; exact hacc
    | cons hd tl ih =>
      intro acc hsub hacc
      simp only [List.foldl_cons]
      cases hl : lookupA acc hd.1 with
      | none =>
        exact ih _ (fun kv hkv => hsub kv (List.mem_cons_of_mem _ hkv)) hacc
      | some st =>
        refine ih _ (fun kv hkv => hsub kv (List.mem_cons_of_mem _ hkv)) ?_
        intro kv hkv
        rcases mem_insertA hkv with h1 | h1
        · rw [h1]
          have hst := hacc (hd.1, st) (lookupA_mem hl)
          have hhd := hfm hd (hsub hd (List.mem_cons_self _ _))
          exact ⟨hst.1, hst.2.1, hst.2.2.1, fun fl hfl => hhd.2 fl hfl, fun _ => hhd.1⟩
        · exact hacc kv h1
  intro kv hkv
  exact step2 fm _ (fun kv h => h)
    (fun kv h => ((step1 mm [] (fun kv h => h) (by intro kv h; cases h)) kv h).1) kv hkv

/-- C3 (amended): a shape is recorded exactly per receiver type that has at
least one exported method — whether or not that receiver type is itself
exported; a field-only struct is dropped.  Within every recorded shape the
method list is non-empty and carries only exported methods, the field list
carries only exported field names, and a non-empty field list occurs only on
an exported struct name. -/
theorem c3_amended_extraction :
    ∀ (readOk : String → Bool) (parseErr : String → Option String)
      (files : List GoFile) (enum : List String) (fieldMap : List (String × List Field)),
      getFields readOk parseErr files = .ok fieldMap →
      ∀ st ∈ getStructs (getMethods readOk files) fieldMap enum,
        st.Methods ≠ [] ∧
        (∀ me ∈ st.Methods, isExportedGo me.Name = true) ∧
        (∀ fl ∈ st.Fields, isExportedGo fl.Name = true) ∧
        (st.Fields ≠ [] → isExportedGo st.Name = true) := by
  intro readOk parseErr files enum fieldMap hfm st hst
  unfold getStructs at hst
  rcases List.mem_filterMap.mp hst with ⟨k, _, hlk⟩
  have hentry := buildStructMap_inv (getMethods readOk files) fieldMap
    (getMethods_inv readOk files) (getFields_inv readOk parseErr files fieldMap hfm)
    (k, st) (lookupA_mem hlk)
  refine ⟨hentry.2.1, hentry.2.2.1, hentry.2.2.2.1, ?_⟩
  intro hne
  rw [hentry.1]
  exact hentry.2.2.2.2 hne

/-- A file declaring only an exported method `Bar` on the UNEXPORTED receiver
type `foo`. -/
def fileC3 : GoFile :=
  { name := "a.go", src := "",
    decls := [.method { recvTypeSrc := "*foo", name := "Bar", params := [], results := none }],
    structNodes := [] }

/-- C3 counterexample: the extractor records a shape for the unexported
struct `foo` (because it has an exported method), so unexported structs DO
appear among the extracted shapes. -/
theorem c3_counterexample :
    (buildStructMap (getMethods (fun _ => true) [fileC3]) []).map Prod.fst = ["foo"] ∧
    getStructs (getMethods (fun _ => true) [fileC3]) [] ["foo"] =
      [{ Name := "foo", Methods := [{ Name := "Bar", Params := [], Results := [] }],
         Fields := [] }] ∧
    isExportedGo "foo" = false := by
  refine ⟨?_, ?_, ?_⟩ <;> decide

/-- A file declaring the exported struct `Pub` with exported field `F` and an
exported method `Go`. -/
def fileW3 : GoFile :=
  { name := "w.go", src := "type Pub struct \x7b",
    decls := [.method { recvTypeSrc := "*Pub", name := "Go", params := [], results := none }],
    structNodes := [{ line := 1, fields := [{ names := ["F"], typeSrc := "int" }] }] }

/-- The shape extracted from `fileW3`. -/
def stPub : Struct :=
  { Name := "Pub", Methods := [{ Name := "Go", Params := [], Results := [] }],
    Fields := [{ Name := "F", Typ := "int" }] }

/-- C3 witness: on a concrete package the recorded shape satisfies the
amended extraction properties. -/
theorem c3_amended_extraction_witness :
    stPub.Methods ≠ [] ∧
    isExportedGo (Method.Name { Name := "Go", Params := [], Results := [] }) = true ∧
    isExportedGo (Field.Name { Name := "F", Typ := "int" }) = true ∧
    isExportedGo stPub.Name = true := by
  have h := c3_amended_extraction (fun _ => true) (fun _ => none) [fileW3] ["Pub"]
    [("Pub", [{ Name := "F", Typ := "int" }])] rfl stPub (by decide)
  exact ⟨h.1, h.2.1 _ (by decide), h.2.2.1 _ (by decide), h.2.2.2 (by decide)⟩

/-! ### C4 — genCode's error flow -/

/-- The same effects with the (never-checked) template-execution error
components erased. -/
def eraseExec (fx : GenEffects) : GenEffects :=
  { fx with
    execIfaceE := fun name ifaces => ((fx.execIfaceE name ifaces).1, none)
    execImplE := fun name impls importPath basePkg =>
      ((fx.execImplE name impls importPath basePkg).1, none) }

theorem genCodeLoop_cons (fx : GenEffects) (basePkg subpkgName : String)
    (subpkg : Package) (rest : List (String × Package))
    (ifm im : List (String × String)) :
    genCodeLoop fx basePkg ((subpkgName, subpkg) :: rest) ifm im =
      match fx.buildIfacesE subpkg with
      | .error e => .error e
      | .ok ifaces =>
        match fx.ifaceTmplParseE with
        | .error e => .error e
        | .ok _ =>
          match fx.formatSourceE (fx.execIfaceE subpkgName ifaces).1 with
          | .error e => .error e
          | .ok ifacePkg =>
            match fx.buildImplsE subpkg with
            | .error e => .error e
            | .ok impls =>
              match fx.implTmplParseE with
              | .error e => .error e
              | .ok _ =>
                match fx.formatSourceE
                    (fx.execImplE subpkgName impls subpkg.ImportPath basePkg).1 with
                | .error e => .error e
                | .ok implPkg =>
                  genCodeLoop fx basePkg rest
                    (insertA ifm (subpkgName ++ "iface") ifacePkg)
                    (insertA im subpkgName implPkg) := rfl

theorem genCodeLoop_cons_erase (fx : GenEffects) (basePkg subpkgName : String)
    (subpkg : Package) (rest : List (String × Package))
    (ifm im : List (String × String)) :
    genCodeLoop (eraseExec fx) basePkg ((subpkgName, subpkg) :: rest) ifm im =
      match fx.buildIfacesE subpkg with
      | .error e => .error e
      | .ok ifaces =>
        match fx.ifaceTmplParseE with
        | .error e => .error e
        | .ok _ =>
          match fx.formatSourceE (fx.execIfaceE subpkgName ifaces).1 with
          | .error e => .error e
          | .ok ifacePkg =>
            match fx.buildImplsE subpkg with
            | .error e => .error e
            | .ok impls =>
              match fx.implTmplParseE with
              | .error e => .error e
              | .ok _ =>
                match fx.formatSourceE
                    (fx.execImplE subpkgName impls subpkg.ImportPath basePkg).1 with
                | .error e => .error e
                | .ok implPkg =>
                  genCodeLoop (eraseExec fx) basePkg rest
                    (insertA ifm (subpkgName ++ "iface") ifacePkg)
                    (insertA im subpkgName implPkg) := rfl

theorem getMethodsDecls_skip (readOk : String → Bool) (file : GoFile)
    (h : readOk file.name = false) :
    ∀ (ds : List Decl) (mm : List (String × List Method)),
      getMethodsDecls readOk file ds mm = mm := by
  intro ds
  induction ds with
  | nil => intro mm; rfl
  | cons d rest ih =>
    intro mm
    rw [getMethodsDecls_cons, if_pos h]
    exact ih mm

/-- C4 (amended): genCode returns the first error of the CHECKED steps — the
subpackage extraction, interface building, template parsing, and formatting
of either buffer — but the two template-execution errors (testable.go lines
160 and 184, overwritten before ever being inspected) are discarded and the
result is entirely insensitive to them, and a file whose re-read fails during
method or field extraction is silently skipped rather than reported. -/
theorem c4_amended_error_flow :
    (∀ (fx : GenEffects) (basePkg : String) (sp : List (String × Package))
       (ifm im : List (String × String)),
       genCodeLoop (eraseExec fx) basePkg sp ifm im = genCodeLoop fx basePkg sp ifm im) ∧
    (∀ (fx : GenEffects) (basePkg e : String),
       genCodeE fx (.error e) basePkg = .error e) ∧
    (∀ (fx : GenEffects) (basePkg name : String) (sp : Package)
       (rest : List (String × Package)) (ifm im : List (String × String)) (e : String),
       fx.buildIfacesE sp = .error e →
       genCodeLoop fx basePkg ((name, sp) :: rest) ifm im = .error e) ∧
    (∀ (fx : GenEffects) (basePkg name : String) (sp : Package)
       (rest : List (String × Package)) (ifm im : List (String × String))
       (ifaces : List String) (e : String),
       fx.buildIfacesE sp = .ok ifaces → fx.ifaceTmplParseE = .ok () →
       fx.formatSourceE (fx.execIfaceE name ifaces).1 = .error e →
       genCodeLoop fx basePkg ((name, sp) :: rest) ifm im = .error e) ∧
    (∀ (readOk : String → Bool) (f : GoFile) (files : List GoFile)
       (mm : List (String × List Method)), readOk f.name = false →
       getMethodsFiles readOk (f :: files) mm = getMethodsFiles readOk files mm) ∧
    (∀ (readOk : String → Bool) (parseErr : String → Option String) (f : GoFile)
       (files : List GoFile) (fm : List (String × List Field)), readOk f.name = false →
       getFieldsFiles readOk parseErr (f :: files) fm = getFieldsFiles readOk parseErr files fm) := by
  refine ⟨?_, ?_, ?_, ?_, ?_, ?_⟩
  · intro fx basePkg sp
    induction sp with
    | nil => intro ifm im; rfl
    | cons hd rest ih =>
      intro ifm im
      obtain ⟨name, subpkg⟩ := hd
      rw [genCodeLoop_cons_erase, genCodeLoop_cons]
      split
      · rfl
      · split
        · rfl
        · split
          · rfl
          · split
            · rfl
            · split
              · rfl
              · split
                · rfl
                · exact ih _ _
  · intro fx basePkg e
    rfl
  · intro fx basePkg name sp rest ifm im e h
    rw [genCodeLoop_cons, h]
  · intro fx basePkg name sp rest ifm im ifaces e h1 h2 h3
    simp only [genCodeLoop_cons, h1, h2, h3]
  · intro readOk f files mm h
    show getMethodsFiles readOk files (getMethodsDecls readOk f f.decls mm) =
      getMethodsFiles readOk files mm
    rw [getMethodsDecls_skip readOk f h]
  · intro readOk parseErr f files fm h
    rw [getFieldsFiles_cons, if_pos h]

def fxBoom : GenEffects :=
  { stdEffects (fun s => .ok s) with buildIfacesE := fun _ => .error "boom" }

/-- C4 witness: a failing checked step (interface building) propagates its
error out of genCode's loop. -/
theorem c4_amended_error_flow_witness :
    genCodeLoop fxBoom "b" [("p", pkgC1)] [] [] = .error "boom" :=
  c4_amended_error_flow.2.2.1 fxBoom "b" "p" pkgC1 [] [] [] "boom" rfl

def pkgEmptyC4 : Package := { Name := "p", Structs := [], ImportPath := "x/p" }

/-- Effects identical to a real run except that the interface template
execution reports an error (while still filling the buffer). -/
def fxDropIface : GenEffects :=
  { stdEffects (fun s => .ok s) with
    execIfaceE := fun name ifaces =>
      (ifacePkgText name ifaces, some "iface template execution failed") }

/-- C4 counterexample: the interface template execution FAILS, yet genCode
returns `.ok` — the error assigned at testable.go line 160 is overwritten at
line 168 without ever being checked, so it is discarded, contradicting the
claim that no error arising in any step is ever discarded. -/
theorem c4_counterexample :
    (fxDropIface.execIfaceE "p" (buildIfaces pkgEmptyC4)).2 =
      some "iface template execution failed" ∧
    genCodeE fxDropIface (.ok [("p", pkgEmptyC4)]) "base" =
      .ok ([("p" ++ "iface", ifacePkgText "p" (buildIfaces pkgEmptyC4))],
           [("p", implPkgText "p" (buildImpls pkgEmptyC4) pkgEmptyC4.ImportPath "base")]) :=
  ⟨rfl, rfl⟩

/-! ### C7 — determinism across map iteration orders -/

def fileC7 : GoFile :=
  { name := "c.go", src := "",
    decls := [.method { recvTypeSrc := "Alpha", name := "Go", params := [], results := none },
              .method { recvTypeSrc := "Beta", name := "Run", params := [], results := none }],
    structNodes := [] }

def mmC7 : List (String × List Method) := getMethods (fun _ => true) [fileC7]

/-- The same parsed package, with the struct map enumerated `Alpha` first. -/
def pkgC7a : Package :=
  { Name := "p", Structs := getStructs mmC7 [] ["Alpha", "Beta"], ImportPath := "ip" }

/-- The same parsed package, with the struct map enumerated `Beta` first. -/
def pkgC7b : Package :=
  { Name := "p", Structs := getStructs mmC7 [] ["Beta", "Alpha"], ImportPath := "ip" }

/-- C7 counterexample: both enumerations are iteration orders of the SAME
struct map of the same parsed package, yet the generated file contents
differ — the interface and wrapper declarations appear in map-iteration
order, which Go does not fix across runs. -/
theorem c7_counterexample :
    (buildStructMap mmC7 []).map Prod.fst = ["Alpha", "Beta"] ∧
    List.Perm ["Beta", "Alpha"] ["Alpha", "Beta"] ∧
    (genCodeRun (fun s => .ok s) [("p", pkgC7a)] "base").toOption ≠
      (genCodeRun (fun s => .ok s) [("p", pkgC7b)] "base").toOption ∧
    (genCodeRun (fun s => .ok s) [("p", pkgC7a)] "base").toOption.isSome = true := by
  refine ⟨?_, ?_, ?_, ?_⟩ <;> decide

/-- Key insertion on the association-list model of a Go map. -/
def insKey (ks : List String) (k : String) : List String :=
  if k ∈ ks then ks else ks ++ [k]

theorem insertA_keys {α : Type} :
    ∀ (m : List (String × α)) (k : String) (v : α),
      (insertA m k v).map Prod.fst = insKey (m.map Prod.fst) k := by
  intro m
  induction m with
  | nil => intro k v; simp [insertA, insKey]
  | cons hd tl ih =>
    intro k v
    obtain ⟨k', v'⟩ := hd
    by_cases h : k' = k
    · subst h
      simp [insertA, insKey]
    · have hne : ¬k = k' := Ne.symm h
      by_cases hmem : k ∈ tl.map Prod.fst
      · simp [insertA, insKey, h, hne, hmem, ih]
      · simp [insertA, insKey, h, hne, hmem, ih]

theorem genCodeLoop_keys (fx : GenEffects) (basePkg : String) :
    ∀ (sp : List (String × Package)) (ifm im : List (String × String))
      (r : List (String × String) × List (String × String)),
      genCodeLoop fx basePkg sp ifm im = .ok r →
      r.1.map Prod.fst =
        (sp.map (fun p => p.1 ++ "iface")).foldl insKey (ifm.map Prod.fst) ∧
      r.2.map Prod.fst = (sp.map Prod.fst).foldl insKey (im.map Prod.fst) := by
  intro sp
  induction sp with
  | nil =>
    intro ifm im r h
    cases h
    exact ⟨rfl, rfl⟩
  | cons hd rest ih =>
    intro ifm im r h
    obtain ⟨name, subpkg⟩ := hd
    rw [genCodeLoop_cons] at h
    cases hb : fx.buildIfacesE subpkg with
    | error e => simp only [hb] at h; cases h
    | ok ifaces =>
      simp only [hb] at h
      cases hp : fx.ifaceTmplParseE with
      | error e => simp only [hp] at h; cases h
      | ok u =>
        simp only [hp] at h
        cases hf : fx.formatSourceE (fx.execIfaceE name ifaces).1 with
        | error e => simp only [hf] at h; cases h
        | ok ifacePkg =>
          simp only [hf] at h
          cases hbi : fx.buildImplsE subpkg with
          | error e => simp only [hbi] at h; cases h
          | ok impls =>
            simp only [hbi] at h
            cases hpi : fx.implTmplParseE with
            | error e => simp only [hpi] at h; cases h
            | ok u2 =>
              simp only [hpi] at h
              cases hfi : fx.formatSourceE
                  (fx.execImplE name impls subpkg.ImportPath basePkg).1 with
              | error e => simp only [hfi] at h; cases h
              | ok implPkg =>
                simp only [hfi] at h
                have hrec := ih _ _ r h
                constructor
                · rw [hrec.1, insertA_keys]
                  simp only [List.map_cons, List.foldl_cons]
                · rw [hrec.2, insertA_keys]
                  simp only [List.map_cons, List.foldl_cons]

/-- C7 (amended): genCode is deterministic as a function of the parsed
package, the base package path AND the map iteration orders; the KEY lists of
the two returned maps are determined by the subpackage names alone (struct
enumeration cannot change them), but the file CONTENTS depend on the
unspecified iteration order of the struct map, so two runs over the same
parsed package may produce different file contents. -/
theorem c7_amended_determinism :
    ∀ (format : String → Except String String) (basePkg : String)
      (sps1 sps2 : List (String × Package))
      (r1 r2 : List (String × String) × List (String × String)),
      sps1.map Prod.fst = sps2.map Prod.fst →
      genCodeRun format sps1 basePkg = .ok r1 →
      genCodeRun format sps2 basePkg = .ok r2 →
      r1.1.map Prod.fst = r2.1.map Prod.fst ∧ r1.2.map Prod.fst = r2.2.map Prod.fst := by
  intro format basePkg sps1 sps2 r1 r2 hnames h1 h2
  have k1 := genCodeLoop_keys (stdEffects format) basePkg sps1 [] [] r1 h1
  have k2 := genCodeLoop_keys (stdEffects format) basePkg sps2 [] [] r2 h2
  have hmap : ∀ sps : List (String × Package),
      sps.map (fun p => p.1 ++ "iface") =
        (sps.map Prod.fst).map (fun s => s ++ "iface") := by
    intro sps
    rw [List.map_map]
    rfl
  constructor
  · rw [k1.1, k2.1, hmap, hmap, hnames]
  · rw [k1.2, k2.2, hnames]

def runW7a : List (String × String) × List (String × String) :=
  ([("p" ++ "iface", ifacePkgText "p" (buildIfaces pkgEmptyC4))],
   [("p", implPkgText "p" (buildImpls pkgEmptyC4) pkgEmptyC4.ImportPath "base")])

def runW7b : List (String × String) × List (String × String) :=
  ([("p" ++ "iface", ifacePkgText "p" (buildIfaces pkgC7a))],
   [("p", implPkgText "p" (buildImpls pkgC7a) pkgC7a.ImportPath "base")])

/-- C7 witness: two successful runs over subpackage lists with the same names
have the same key lists, whatever the packages' struct lists are. -/
theorem c7_amended_determinism_witness :
    runW7a.1.map Prod.fst = runW7b.1.map Prod.fst ∧
    runW7a.2.map Prod.fst = runW7b.2.map Prod.fst :=
  c7_amended_determinism (fun s => .ok s) "base" [("p", pkgEmptyC4)] [("p", pkgC7a)]
    runW7a runW7b rfl rfl rfl

end Testable
